import Mathlib

/-!
# Depth buffer (`pkg/depth/buffer.go`)

A shallow embedding of the order-book depth buffer: the `Buffer` state, the
ingress operations `AddUpdate` and `Reset`, and the resync attempt
`fetchAndPush` run by the `tryFetch` goroutine.

Conventions of the embedding.

* Update ids are Go `int64`; they are integers here and every `+` / `-` of the
  source is wrapped to 64 bits (`add64`, `sub64`).
* The order-book payload type `types.SliceOrderBook` is a type parameter `Book`.
* The callback lists of the source are replaced by the record `events` of the
  `Emit...` calls made so far, and `go b.tryFetch()` by the counter `spawned`.
* The mutex makes every locked section one atomic state transformer; the
  fetcher is called outside the lock, so its outcome is an argument of
  `fetchAndPush`.
-/

namespace Depth

/-! ## 64-bit integers -/

/-- Least value of a Go `int64`. -/
def minInt64 : Int := -9223372036854775808

/-- Greatest value of a Go `int64`. -/
def maxInt64 : Int := 9223372036854775807

/-- Two's complement wrap-around of an integer to the `int64` range. -/
def wrap64 (x : Int) : Int :=
  (x + 9223372036854775808) % 18446744073709551616 - 9223372036854775808

/-- Go `a + b` on `int64`. -/
def add64 (a b : Int) : Int := wrap64 (a + b)

/-- Go `a - b` on `int64`. -/
def sub64 (a b : Int) : Int := wrap64 (a - b)

/-- The integer is a value of type `int64`. -/
def IsInt64 (x : Int) : Prop := minInt64 ≤ x ∧ x ≤ maxInt64

/-- The integer is an `int64` whose successor is an `int64` too. -/
def HasNext (x : Int) : Prop := minInt64 ≤ x ∧ x < maxInt64

instance (x : Int) : Decidable (IsInt64 x) := by unfold IsInt64; infer_instance

instance (x : Int) : Decidable (HasNext x) := by unfold HasNext; infer_instance

/-! ## Data model -/

/-- Source type `Update`: one depth delta with its inclusive id range. -/
structure Update (Book : Type) where
  FirstUpdateID : Int
  FinalUpdateID : Int
  Object : Book
  deriving DecidableEq, Repr

/-- Modelled from the spec: the generated dispatcher methods `EmitReset`, `EmitReady`
and `EmitPush` (callbackgen output, not among the sources) deliver three event
kinds, reset (no payload), ready (snapshot, replayed updates) and push (single
update), to the registered subscribers. An event records one such call. -/
inductive Event (Book : Type) where
  | reset
  | ready (snapshot : Book) (updates : List (Update Book))
  | push (update : Update Book)
  deriving DecidableEq, Repr

/-- Modelled from the spec: `util.Reonce` (not among the sources), the re-armable
"trigger once" primitive: `Do` runs its argument only when the guard has not
fired since the last `Reset`. -/
structure Reonce where
  done : Bool
  deriving DecidableEq, Repr

/-- Modelled from the spec: `Reonce.Reset` re-arms the guard. -/
def Reonce.Reset (_o : Reonce) : Reonce := ⟨false⟩

/-- Modelled from the spec: `Reonce.Do` fires at most once per arming; the result is
the guard afterwards and whether the argument was run. -/
def Reonce.Do (o : Reonce) : Reonce × Bool :=
  if o.done then (o, false) else (⟨true⟩, true)

/-- Errors returned by the buffer; each constructor carries the arguments of the
corresponding `fmt.Errorf` call, in order. -/
inductive DepthError where
  /-- the error returned by the fetcher -/
  | fetch (msg : String)
  /-- "found missing update between finalUpdateID %d and firstUpdateID %d, diff: %d" -/
  | missingUpdate (expected got diff : Int)
  /-- "depth snapshot is too early, final update %d is < the first update id %d" -/
  | tooEarly (finalUpdateID firstUpdateID : Int)
  /-- "there is a missing depth update, the update id %d > final update id %d + 1" -/
  | missingDepth (firstUpdateID finalUpdateID : Int)
  deriving DecidableEq, Repr

/-- Source type `Buffer`. `resetC` is the channel of capacity one: `true` when it
holds a signal. `events` and `spawned` record the observable effects. -/
structure Buffer (Book : Type) where
  buffer : List (Update Book)
  finalUpdateID : Int
  snapshot : Option Book
  resetC : Bool
  once : Reonce
  events : List (Event Book)
  spawned : Nat
  deriving DecidableEq, Repr

/-- Outcome of one call of the `SnapshotFetcher`. -/
abbrev FetchResult (Book : Type) := Except String (Book × Int)

variable {Book : Type}

/-- Source `NewBuffer`. -/
def NewBuffer : Buffer Book :=
  { buffer := [], finalUpdateID := 0, snapshot := none, resetC := false,
    once := ⟨false⟩, events := [], spawned := 0 }

/-- Modelled from the spec: `EmitReset` invokes the reset subscribers. -/
def Buffer.EmitReset (b : Buffer Book) : Buffer Book :=
  { b with events := b.events ++ [Event.reset] }

/-- Modelled from the spec: `EmitPush` invokes the push subscribers with the update. -/
def Buffer.EmitPush (b : Buffer Book) (u : Update Book) : Buffer Book :=
  { b with events := b.events ++ [Event.push u] }

/-- Modelled from the spec: `EmitReady` invokes the ready subscribers with the snapshot
and the replayed updates. -/
def Buffer.EmitReady (b : Buffer Book) (book : Book) (updates : List (Update Book)) :
    Buffer Book :=
  { b with events := b.events ++ [Event.ready book updates] }

/-- Source `resetSnapshot`. -/
def Buffer.resetSnapshot (b : Buffer Book) : Buffer Book :=
  let b := { b with snapshot := none }
  let b := { b with finalUpdateID := 0 }
  b.EmitReset

/-- Source `emitReset`: non-blocking send on the one-slot channel. -/
def Buffer.emitReset (b : Buffer Book) : Buffer Book :=
  { b with resetC := true }

/-- Source `Reset`. -/
def Buffer.Reset (b : Buffer Book) : Buffer Book :=
  let b := b.resetSnapshot
  b.emitReset

/-- The call `b.once.Do(func() { go b.tryFetch() })` of `AddUpdate`. -/
def Buffer.onceDoTryFetch (b : Buffer Book) : Buffer Book :=
  let r := b.once.Do
  if r.2 then { b with once := r.1, spawned := b.spawned + 1 }
  else { b with once := r.1 }

/-- The update value built at the head of `AddUpdate`. -/
def newUpdate (o : Book) (firstUpdateID : Int) (finalArgs : List Int) : Update Book :=
  let finalUpdateID := match finalArgs with
    | [] => firstUpdateID
    | f :: _ => f
  { FirstUpdateID := firstUpdateID, FinalUpdateID := finalUpdateID, Object := o }

/-- Source `AddUpdate`: the state after the call and the returned error. -/
def Buffer.AddUpdate (b : Buffer Book) (o : Book) (firstUpdateID : Int)
    (finalArgs : List Int) : Buffer Book × Option DepthError :=
  let u := newUpdate o firstUpdateID finalArgs
  -- select { case <-b.resetC: b.once.Reset(); default: }
  let b := if b.resetC then { b with resetC := false, once := b.once.Reset } else b
  match b.snapshot with
  | none =>
    let b := { b with buffer := b.buffer ++ [u] }
    let b := b.onceDoTryFetch
    (b, none)
  | some _ =>
    if u.FirstUpdateID > add64 b.finalUpdateID 1 then
      let b := { b with buffer := [u] }
      let b := b.resetSnapshot
      let b := b.emitReset
      (b, some (DepthError.missingUpdate (add64 b.finalUpdateID 1) u.FirstUpdateID
        (sub64 u.FirstUpdateID b.finalUpdateID)))
    else
      let b := { b with finalUpdateID := u.FinalUpdateID }
      let b := b.EmitPush u
      (b, none)

/-- The `for _, u := range b.buffer` loop of `fetchAndPush`, with the local
variables `finalUpdateID` and `pushUpdates` as accumulators. An early return
yields the offending update and the running id. -/
def replayLoop : List (Update Book) → Int → List (Update Book) →
    Except (Update Book × Int) (Int × List (Update Book))
  | [], finalUpdateID, pushUpdates => .ok (finalUpdateID, pushUpdates)
  | u :: rest, finalUpdateID, pushUpdates =>
    if u.FirstUpdateID < add64 finalUpdateID 1 then
      replayLoop rest finalUpdateID pushUpdates
    else if u.FirstUpdateID > add64 finalUpdateID 1 then
      .error (u, finalUpdateID)
    else
      replayLoop rest u.FinalUpdateID (pushUpdates ++ [u])

/-- Source `fetchAndPush`, given what the fetcher returned. -/
def Buffer.fetchAndPush (b : Buffer Book) (fetched : FetchResult Book) :
    Buffer Book × Option DepthError :=
  match fetched with
  | .error msg => (b, some (DepthError.fetch msg))
  | .ok (book, finalUpdateID) =>
    -- if len(b.buffer) > 0 { if finalUpdateID < b.buffer[0].FirstUpdateID { ... } }
    let early : Option Int := match b.buffer with
      | first :: _ =>
        if finalUpdateID < first.FirstUpdateID then some first.FirstUpdateID else none
      | [] => none
    match early with
    | some firstID =>
      let b := b.resetSnapshot
      let b := b.emitReset
      (b, some (DepthError.tooEarly finalUpdateID firstID))
    | none =>
      match replayLoop b.buffer finalUpdateID [] with
      | .error (u, fin) =>
        let b := b.resetSnapshot
        let b := b.emitReset
        (b, some (DepthError.missingDepth u.FirstUpdateID fin))
      | .ok (fin, pushUpdates) =>
        let b := { b with buffer := [] }
        let b := { b with finalUpdateID := fin }
        let b := { b with snapshot := some book }
        (b.EmitReady book pushUpdates, none)

/-- Source `tryFetch`: the retry loop, driven by the outcomes of the successive
fetcher calls. The result is the buffer and whether the loop has ended (`break`);
`false` means that the goroutine is still retrying after the listed outcomes. -/
def Buffer.tryFetch (b : Buffer Book) : List (FetchResult Book) → Buffer Book × Bool
  | [] => (b, false)
  | r :: rest =>
    match b.fetchAndPush r with
    | (b, none) => (b, true)
    | (b, some _) => Buffer.tryFetch b rest

/-! ## Traces of atomic steps -/

/-- Number of reset events in a record of events. -/
def countReset : List (Event Book) → Nat
  | [] => 0
  | Event.reset :: es => countReset es + 1
  | _ :: es => countReset es

/-- Number of ready events in a record of events. -/
def countReady : List (Event Book) → Nat
  | [] => 0
  | Event.ready _ _ :: es => countReady es + 1
  | _ :: es => countReady es

/-- No two ready events without a reset event between them; the flag tells
whether a ready event has been seen since the last reset. -/
def oneReadyPerEpoch : List (Event Book) → Bool → Bool
  | [], _ => true
  | Event.reset :: es, _ => oneReadyPerEpoch es false
  | Event.ready _ _ :: es, seen => !seen && oneReadyPerEpoch es true
  | Event.push _ :: es, seen => oneReadyPerEpoch es seen

/-- A buffer together with its `tryFetch` goroutines. `running` holds, for each
goroutine still in its loop, the number of reset events emitted when it was
started; `commits` holds, for each successful `fetchAndPush`, that number for the
committing goroutine and the number of reset events emitted at the commit. -/
structure Sys (Book : Type) where
  buf : Buffer Book
  running : List Nat
  commits : List (Nat × Nat)

/-- An atomic step: a producer call, or one iteration of the loop of the
goroutine at the given position of `running` with the given fetcher outcome. -/
inductive Step (Book : Type) where
  | addUpdate (o : Book) (firstUpdateID : Int) (finalArgs : List Int)
  | reset
  | attempt (task : Nat) (fetched : FetchResult Book)

/-- The system around `NewBuffer`. -/
def Sys.init : Sys Book := { buf := NewBuffer, running := [], commits := [] }

/-- Effect of one atomic step. -/
def Sys.step (s : Sys Book) : Step Book → Sys Book
  | .addUpdate o firstUpdateID finalArgs =>
    let b := (s.buf.AddUpdate o firstUpdateID finalArgs).1
    { s with
      buf := b
      running := if s.buf.spawned < b.spawned then s.running ++ [countReset b.events]
                 else s.running }
  | .reset => { s with buf := s.buf.Reset }
  | .attempt task fetched =>
    match s.running.get? task with
    | none => s
    | some epoch =>
      match s.buf.fetchAndPush fetched with
      | (b, none) =>
        { buf := b, running := s.running.eraseIdx task,
          commits := s.commits ++ [(epoch, countReset s.buf.events)] }
      | (b, some _) => { s with buf := b }

/-- Effect of a trace of atomic steps. -/
def Sys.run (s : Sys Book) : List (Step Book) → Sys Book
  | [] => s
  | st :: rest => Sys.run (s.step st) rest

/-! ## Vocabulary of the claims -/

/-- The updates form a contiguous chain starting right after `s`: the first one
starts at `s + 1` and each next one right after the end of the one before. -/
def IsChain : Int → List (Update Book) → Prop
  | _, [] => True
  | s, u :: rest => u.FirstUpdateID = s + 1 ∧ IsChain u.FinalUpdateID rest

/-- The final id of the last update of the list, or `s` when the list is empty. -/
def lastFinal (s : Int) (us : List (Update Book)) : Int :=
  match us.getLast? with
  | some u => u.FinalUpdateID
  | none => s

/-- The buffers after each of the successive `AddUpdate` calls. -/
def addAll (b : Buffer Book) : List (Update Book) → List (Buffer Book × Option DepthError)
  | [] => []
  | u :: rest =>
    let r := b.AddUpdate u.Object u.FirstUpdateID [u.FinalUpdateID]
    r :: addAll r.1 rest

/-- No call of the sequence meets a gap: each update starts at most one past
the last applied id at the time of its call, and has `first ≤ final`. -/
def GapFree (b : Buffer Book) : List (Update Book) → Prop
  | [] => True
  | u :: rest =>
    u.FirstUpdateID ≤ u.FinalUpdateID ∧ u.FirstUpdateID ≤ b.finalUpdateID + 1 ∧
      GapFree (b.AddUpdate u.Object u.FirstUpdateID [u.FinalUpdateID]).1 rest

/-- Every call of the sequence is exactly contiguous: each update starts right
after the last applied id at the time of its call. -/
def Contiguous (b : Buffer Book) : List (Update Book) → Prop
  | [] => True
  | u :: rest =>
    u.FirstUpdateID = b.finalUpdateID + 1 ∧
      Contiguous (b.AddUpdate u.Object u.FirstUpdateID [u.FinalUpdateID]).1 rest

/-- The list of integers never decreases from one element to the next. -/
def NonDecreasing : List Int → Prop
  | [] => True
  | [_] => True
  | a :: b :: rest => a ≤ b ∧ NonDecreasing (b :: rest)

/-- All ids of the update are `int64` values. -/
def Update.IsTyped (u : Update Book) : Prop :=
  IsInt64 u.FirstUpdateID ∧ IsInt64 u.FinalUpdateID

instance (u : Update Book) : Decidable u.IsTyped := by
  unfold Update.IsTyped; infer_instance

/-! ## Example states -/

/-- A buffer that has a baseline and last applied id `l`. -/
def readyAt (l : Int) : Buffer Unit :=
  { buffer := [], finalUpdateID := l, snapshot := some (), resetC := false,
    once := ⟨true⟩, events := [], spawned := 1 }

/-- A buffer without a baseline whose pending queue holds the given id ranges. -/
def pendingWith (q : List (Int × Int)) : Buffer Unit :=
  { buffer := q.map (fun p => ⟨p.1, p.2, ()⟩), finalUpdateID := 0, snapshot := none,
    resetC := false, once := ⟨true⟩, events := [], spawned := 1 }

/-! ## Arithmetic -/

theorem wrap64_of_isInt64 {x : Int} (h : IsInt64 x) : wrap64 x = x := by
  unfold IsInt64 minInt64 maxInt64 at h
  unfold wrap64
  omega

theorem add64_one_of_hasNext {x : Int} (h : HasNext x) : add64 x 1 = x + 1 := by
  unfold HasNext minInt64 maxInt64 at h
  unfold add64 wrap64
  omega

theorem hasNext_of_lt {x y : Int} (hx : IsInt64 x) (hy : IsInt64 y) (h : x < y) :
    HasNext x := by
  unfold IsInt64 minInt64 maxInt64 at hx hy
  unfold HasNext minInt64 maxInt64
  omega

/-! ## `AddUpdate` -/

/-- C2 (evaluation of the code at the failing input): on a buffer whose last applied
id is 105, `AddUpdate` of the update (110, 112) returns the gap error built from the
already reset `finalUpdateID`: it reports 1 as the expected id (not 106) and 110 as
the size of the gap. -/
theorem addUpdate_gap_error_reads_reset_id :
    ((readyAt 105).AddUpdate () 110 [112]).2 = some (DepthError.missingUpdate 1 110 110) ∧
      ((readyAt 105).AddUpdate () 110 [112]).2 ≠
        some (DepthError.missingUpdate 106 110 (110 - 105)) := by
  constructor
  · rfl
  · decide

/-- C3: on a buffer with a baseline and last applied id `L`, `AddUpdate` of an update
whose first id exceeds `L + 1` returns an error, emits exactly one event, a reset (so
no push), and leaves the buffer without baseline, with the pending queue holding
exactly the triggering update and with the reset signal raised; the next `AddUpdate`
then starts a new `tryFetch`. -/
theorem addUpdate_gap_resets (b : Buffer Book) (book o : Book) (first : Int)
    (finalArgs : List Int) (hready : b.snapshot = some book)
    (hL : IsInt64 b.finalUpdateID) (hF : IsInt64 first)
    (hgap : first > b.finalUpdateID + 1) :
    (b.AddUpdate o first finalArgs).2 ≠ none ∧
      (b.AddUpdate o first finalArgs).1.snapshot = none ∧
      (b.AddUpdate o first finalArgs).1.buffer = [newUpdate o first finalArgs] ∧
      (b.AddUpdate o first finalArgs).1.events = b.events ++ [Event.reset] ∧
      (b.AddUpdate o first finalArgs).1.resetC = true ∧
      ∀ (o2 : Book) (first2 : Int) (finalArgs2 : List Int),
        (((b.AddUpdate o first finalArgs).1.AddUpdate o2 first2 finalArgs2).1.spawned
          = b.spawned + 1) := by
  have hnext : add64 b.finalUpdateID 1 = b.finalUpdateID + 1 :=
    add64_one_of_hasNext (hasNext_of_lt hL hF (by omega))
  have hfirst : (newUpdate o first finalArgs).FirstUpdateID = first := by
    cases finalArgs <;> rfl
  by_cases hc : b.resetC = true
  · simp [Buffer.AddUpdate, hc, hready, hnext, hfirst, hgap, Buffer.resetSnapshot,
      Buffer.emitReset, Buffer.EmitReset, Buffer.onceDoTryFetch, Reonce.Do, Reonce.Reset]
  · simp [Buffer.AddUpdate, hc, hready, hnext, hfirst, hgap, Buffer.resetSnapshot,
      Buffer.emitReset, Buffer.EmitReset, Buffer.onceDoTryFetch, Reonce.Do, Reonce.Reset]

/-- Witness of C3: last applied id 105 and the update (110, 112), followed by the
update (113, 113). -/
theorem addUpdate_gap_resets_witness :
    ((readyAt 105).AddUpdate () 110 [112]).2 ≠ none ∧
      ((readyAt 105).AddUpdate () 110 [112]).1.snapshot = none ∧
      ((readyAt 105).AddUpdate () 110 [112]).1.buffer = [newUpdate () 110 [112]] ∧
      ((readyAt 105).AddUpdate () 110 [112]).1.events = (readyAt 105).events ++ [Event.reset] ∧
      ((readyAt 105).AddUpdate () 110 [112]).1.resetC = true ∧
      ((((readyAt 105).AddUpdate () 110 [112]).1.AddUpdate () 113 []).1.spawned
        = (readyAt 105).spawned + 1) :=
  have h := addUpdate_gap_resets (readyAt 105) () () 110 [112] rfl (by decide) (by decide)
    (by decide)
  ⟨h.1, h.2.1, h.2.2.1, h.2.2.2.1, h.2.2.2.2.1, h.2.2.2.2.2 () 113 []⟩

/-- C9: whenever `AddUpdate` returns no error, either there was no baseline and the
update was appended at the end of the pending queue (no event emitted, baseline still
absent), or there was a baseline and exactly one event, a push carrying the update,
was emitted and the last applied id set to the final id of the update (pending queue
and baseline unchanged); and when `L + 1` is representable for the last applied id
`L`, an error is returned exactly when a baseline exists and the first id of the
update exceeds `L + 1`. -/
theorem addUpdate_dispatch (b : Buffer Book) (o : Book) (first : Int)
    (finalArgs : List Int) :
    ((b.AddUpdate o first finalArgs).2 = none →
      (b.snapshot = none ∧
        (b.AddUpdate o first finalArgs).1.buffer = b.buffer ++ [newUpdate o first finalArgs] ∧
        (b.AddUpdate o first finalArgs).1.events = b.events ∧
        (b.AddUpdate o first finalArgs).1.snapshot = none) ∨
      (b.snapshot ≠ none ∧
        (b.AddUpdate o first finalArgs).1.events
          = b.events ++ [Event.push (newUpdate o first finalArgs)] ∧
        (b.AddUpdate o first finalArgs).1.finalUpdateID
          = (newUpdate o first finalArgs).FinalUpdateID ∧
        (b.AddUpdate o first finalArgs).1.buffer = b.buffer ∧
        (b.AddUpdate o first finalArgs).1.snapshot = b.snapshot)) ∧
    (HasNext b.finalUpdateID →
      ((b.AddUpdate o first finalArgs).2 ≠ none ↔
        (b.snapshot ≠ none ∧
          (newUpdate o first finalArgs).FirstUpdateID > b.finalUpdateID + 1))) := by
  constructor
  · intro hok
    cases hs : b.snapshot with
    | none =>
      left
      by_cases hc : b.resetC = true <;>
        by_cases hd : b.once.done = true <;>
          simp [Buffer.AddUpdate, hc, hd, hs, Buffer.onceDoTryFetch, Reonce.Do, Reonce.Reset]
    | some book =>
      right
      by_cases hg : (newUpdate o first finalArgs).FirstUpdateID > add64 b.finalUpdateID 1
      · by_cases hc : b.resetC = true <;>
          simp [Buffer.AddUpdate, hc, hs, hg] at hok
      · by_cases hc : b.resetC = true <;>
          simp [Buffer.AddUpdate, hc, hs, hg, Buffer.EmitPush]
  · intro hL
    rw [← add64_one_of_hasNext hL]
    cases hs : b.snapshot with
    | none =>
      by_cases hc : b.resetC = true <;>
        simp [Buffer.AddUpdate, hc, hs]
    | some book =>
      by_cases hg : (newUpdate o first finalArgs).FirstUpdateID > add64 b.finalUpdateID 1
      · by_cases hc : b.resetC = true <;>
          simp [Buffer.AddUpdate, hc, hs, hg]
      · by_cases hc : b.resetC = true <;>
          simp [Buffer.AddUpdate, hc, hs, hg]

/-- Witness of C9: last applied id 105 and the update (110, 112) give an error. -/
theorem addUpdate_dispatch_witness :
    HasNext (readyAt 105).finalUpdateID ∧
      (((readyAt 105).AddUpdate () 110 [112]).2 ≠ none ↔
        ((readyAt 105).snapshot ≠ none ∧
          (newUpdate () 110 [112]).FirstUpdateID > (readyAt 105).finalUpdateID + 1)) :=
  ⟨by decide, (addUpdate_dispatch (readyAt 105) () 110 [112]).2 (by decide)⟩

/-! ## `Reset` -/

/-- C5 (counterexample): `Reset` on a buffer without baseline whose pending queue
holds the update (1, 1) does not leave an empty pending queue. -/
theorem reset_keeps_pending_queue :
    ¬ ((pendingWith [(1, 1)]).Reset.snapshot = none ∧
        (pendingWith [(1, 1)]).Reset.buffer = [] ∧
        (pendingWith [(1, 1)]).Reset.events = (pendingWith [(1, 1)]).events ++ [Event.reset] ∧
        (pendingWith [(1, 1)]).Reset.resetC = true) := by
  decide

/-- C5 (amended): in every buffer state `Reset` leaves the buffer without baseline
and with the pending queue unchanged (hence empty when it was empty), emits exactly
one event, a reset, and raises the reset signal, so that the next `AddUpdate` starts a
new `tryFetch`. -/
theorem reset_effect (b : Buffer Book) :
    b.Reset.snapshot = none ∧
      b.Reset.buffer = b.buffer ∧
      b.Reset.events = b.events ++ [Event.reset] ∧
      b.Reset.resetC = true ∧
      ∀ (o : Book) (first : Int) (finalArgs : List Int),
        (b.Reset.AddUpdate o first finalArgs).1.spawned = b.spawned + 1 := by
  refine ⟨rfl, rfl, rfl, rfl, ?_⟩
  intro o first finalArgs
  simp [Buffer.Reset, Buffer.AddUpdate, Buffer.resetSnapshot, Buffer.emitReset,
    Buffer.EmitReset, Buffer.onceDoTryFetch, Reonce.Do, Reonce.Reset]

/-! ## The replay loop -/

theorem lastFinal_cons (s : Int) (u : Update Book) (rest : List (Update Book)) :
    lastFinal s (u :: rest) = lastFinal u.FinalUpdateID rest := by
  cases rest with
  | nil => simp [lastFinal]
  | cons v r =>
    simp only [lastFinal, List.getLast?_cons_cons]
    rw [List.getLast?_eq_getLast (v :: r) (List.cons_ne_nil v r)]

theorem lastFinal_eq_getLast (s : Int) (us : List (Update Book)) (hne : us ≠ []) :
    lastFinal s us = (us.getLast hne).FinalUpdateID := by
  simp [lastFinal, List.getLast?_eq_getLast us hne]

/-- Updates starting at or before the running id are skipped by the loop. -/
theorem replayLoop_skip (covered rest : List (Update Book)) (s : Int)
    (acc : List (Update Book)) (hs : HasNext s)
    (hcov : ∀ u ∈ covered, u.FirstUpdateID ≤ s) :
    replayLoop (covered ++ rest) s acc = replayLoop rest s acc := by
  induction covered with
  | nil => rfl
  | cons u us ih =>
    have hu : u.FirstUpdateID < add64 s 1 := by
      rw [add64_one_of_hasNext hs]
      have := hcov u (List.mem_cons_self u us)
      omega
    have hrest : ∀ v ∈ us, v.FirstUpdateID ≤ s := fun v hv =>
      hcov v (List.mem_cons_of_mem u hv)
    simp [replayLoop, hu, ih hrest]

/-- A contiguous chain of typed updates is accepted whole by the loop. -/
theorem replayLoop_chain (chain : List (Update Book)) :
    ∀ (s : Int) (acc : List (Update Book)), IsInt64 s → (∀ u ∈ chain, u.IsTyped) →
      IsChain s chain →
      replayLoop chain s acc = .ok (lastFinal s chain, acc ++ chain) := by
  induction chain with
  | nil =>
    intro s acc _ _ _
    simp [replayLoop, lastFinal]
  | cons u us ih =>
    intro s acc hs hty hchain
    have hu := hty u (List.mem_cons_self u us)
    have hnext : add64 s 1 = s + 1 :=
      add64_one_of_hasNext (hasNext_of_lt hs hu.1 (by rw [hchain.1]; omega))
    have h1 : ¬ u.FirstUpdateID < add64 s 1 := by rw [hnext, hchain.1]; omega
    have h2 : ¬ u.FirstUpdateID > add64 s 1 := by rw [hnext, hchain.1]; omega
    have hrec := ih u.FinalUpdateID (acc ++ [u]) hu.2
      (fun v hv => hty v (List.mem_cons_of_mem u hv)) hchain.2
    simp [replayLoop, h1, h2, hrec, lastFinal_cons]

/-- The loop over a concatenation runs the first part and then, unless it returned
early, the second part from the accumulators the first part left. -/
theorem replayLoop_append (q1 q2 : List (Update Book)) :
    ∀ (s : Int) (acc : List (Update Book)),
      replayLoop (q1 ++ q2) s acc =
        match replayLoop q1 s acc with
        | .error e => .error e
        | .ok (fin, out) => replayLoop q2 fin out := by
  induction q1 with
  | nil => intro s acc; rfl
  | cons u us ih =>
    intro s acc
    by_cases h1 : u.FirstUpdateID < add64 s 1
    · simp [replayLoop, h1, ih]
    · by_cases h2 : u.FirstUpdateID > add64 s 1
      · simp [replayLoop, h1, h2]
      · simp [replayLoop, h1, h2, ih]

/-- What a completed loop returns: the accepted updates are appended to the
accumulator in arrival order and form a contiguous chain from the starting id, and
the running id is the final id of the last accepted update. -/
theorem replayLoop_ok (q : List (Update Book)) :
    ∀ (s : Int) (acc : List (Update Book)) (fin : Int) (out : List (Update Book)),
      HasNext s → (∀ u ∈ q, HasNext u.FinalUpdateID) →
      replayLoop q s acc = .ok (fin, out) →
      ∃ replay, out = acc ++ replay ∧ replay.Sublist q ∧ IsChain s replay ∧
        fin = lastFinal s replay ∧ HasNext fin := by
  induction q with
  | nil =>
    intro s acc fin out hs _ h
    simp [replayLoop] at h
    exact ⟨[], by simp [h.2], List.Sublist.slnil, trivial, by simp [lastFinal, h.1],
      h.1 ▸ hs⟩
  | cons u us ih =>
    intro s acc fin out hs hq h
    have hus : ∀ v ∈ us, HasNext v.FinalUpdateID := fun v hv =>
      hq v (List.mem_cons_of_mem u hv)
    by_cases h1 : u.FirstUpdateID < add64 s 1
    · simp [replayLoop, h1] at h
      obtain ⟨replay, ho, hsub, hch, hfin, hn⟩ := ih s acc fin out hs hus h
      exact ⟨replay, ho, hsub.cons u, hch, hfin, hn⟩
    · by_cases h2 : u.FirstUpdateID > add64 s 1
      · simp [replayLoop, h1, h2] at h
      · simp [replayLoop, h1, h2] at h
        obtain ⟨replay, ho, hsub, hch, hfin, hn⟩ :=
          ih u.FinalUpdateID (acc ++ [u]) fin out (hq u (List.mem_cons_self u us)) hus h
        refine ⟨u :: replay, by simp [ho], hsub.cons₂ u, ⟨?_, hch⟩, ?_, hn⟩
        · rw [add64_one_of_hasNext hs] at h1 h2
          omega
        · rw [lastFinal_cons]; exact hfin

/-! ## `fetchAndPush` -/

/-- The early-snapshot branch of `fetchAndPush`. -/
theorem fetchAndPush_tooEarly (b : Buffer Book) (book : Book) (s : Int)
    (first : Update Book) (rest : List (Update Book)) (hb : b.buffer = first :: rest)
    (h : s < first.FirstUpdateID) :
    b.fetchAndPush (.ok (book, s)) =
      (b.resetSnapshot.emitReset, some (DepthError.tooEarly s first.FirstUpdateID)) := by
  simp [Buffer.fetchAndPush, hb, h]

/-- Past the early-snapshot check `fetchAndPush` is decided by the replay loop. -/
theorem fetchAndPush_past_check (b : Buffer Book) (book : Book) (s : Int)
    (h : ∀ first rest, b.buffer = first :: rest → ¬ s < first.FirstUpdateID) :
    b.fetchAndPush (.ok (book, s)) =
      match replayLoop b.buffer s [] with
      | .error (u, fin) =>
        (b.resetSnapshot.emitReset, some (DepthError.missingDepth u.FirstUpdateID fin))
      | .ok (fin, out) =>
        (Buffer.EmitReady { b with buffer := [], finalUpdateID := fin, snapshot := some book }
          book out, none) := by
  cases hq : b.buffer with
  | nil => simp [Buffer.fetchAndPush, hq]
  | cons first rest =>
    have := h first rest hq
    simp [Buffer.fetchAndPush, hq, this]

/-- C4 (counterexample): with the pending queue [(95, 95)] and a snapshot as of 90
the attempt does not leave an empty pending queue. -/
theorem fetchAndPush_early_keeps_queue :
    ¬ (((pendingWith [(95, 95)]).fetchAndPush (.ok ((), 90))).2 ≠ none ∧
        ((pendingWith [(95, 95)]).fetchAndPush (.ok ((), 90))).1.snapshot = none ∧
        ((pendingWith [(95, 95)]).fetchAndPush (.ok ((), 90))).1.events
          = (pendingWith [(95, 95)]).events ++ [Event.reset] ∧
        ((pendingWith [(95, 95)]).fetchAndPush (.ok ((), 90))).1.resetC = true ∧
        ((pendingWith [(95, 95)]).fetchAndPush (.ok ((), 90))).1.buffer = []) := by
  decide

/-- C4 (amended): when the pending queue is not empty and the fetched snapshot is as
of an id below the first id of the first pending update, `fetchAndPush` returns the
"too early" error, leaves the buffer without baseline, emits exactly one event, a
reset, raises the reset signal and keeps the pending queue unchanged; `tryFetch`
goes on with the next fetch. -/
theorem fetchAndPush_early_snapshot (b : Buffer Book) (book : Book) (s : Int)
    (first : Update Book) (rest : List (Update Book)) (hb : b.buffer = first :: rest)
    (h : s < first.FirstUpdateID) :
    (b.fetchAndPush (.ok (book, s))).2 = some (DepthError.tooEarly s first.FirstUpdateID) ∧
      (b.fetchAndPush (.ok (book, s))).1.snapshot = none ∧
      (b.fetchAndPush (.ok (book, s))).1.events = b.events ++ [Event.reset] ∧
      (b.fetchAndPush (.ok (book, s))).1.resetC = true ∧
      (b.fetchAndPush (.ok (book, s))).1.buffer = b.buffer ∧
      ∀ later : List (FetchResult Book),
        b.tryFetch (.ok (book, s) :: later)
          = (b.fetchAndPush (.ok (book, s))).1.tryFetch later := by
  rw [fetchAndPush_tooEarly b book s first rest hb h]
  refine ⟨rfl, rfl, rfl, rfl, rfl, ?_⟩
  intro later
  simp [Buffer.tryFetch, fetchAndPush_tooEarly b book s first rest hb h]

/-- Witness of C4 (amended): pending queue [(95, 95)], snapshot as of 90, then a
snapshot as of 95. -/
theorem fetchAndPush_early_snapshot_witness :
    ((pendingWith [(95, 95)]).fetchAndPush (.ok ((), 90))).2
        = some (DepthError.tooEarly 90 95) ∧
      ((pendingWith [(95, 95)]).fetchAndPush (.ok ((), 90))).1.snapshot = none ∧
      ((pendingWith [(95, 95)]).fetchAndPush (.ok ((), 90))).1.events
        = (pendingWith [(95, 95)]).events ++ [Event.reset] ∧
      ((pendingWith [(95, 95)]).fetchAndPush (.ok ((), 90))).1.resetC = true ∧
      ((pendingWith [(95, 95)]).fetchAndPush (.ok ((), 90))).1.buffer
        = (pendingWith [(95, 95)]).buffer ∧
      (pendingWith [(95, 95)]).tryFetch [.ok ((), 90), .ok ((), 95)]
        = ((pendingWith [(95, 95)]).fetchAndPush (.ok ((), 90))).1.tryFetch [.ok ((), 95)] :=
  have h := fetchAndPush_early_snapshot (pendingWith [(95, 95)]) () 90 ⟨95, 95, ()⟩ [] rfl
    (by decide)
  ⟨h.1, h.2.1, h.2.2.1, h.2.2.2.1, h.2.2.2.2.1, h.2.2.2.2.2 [.ok ((), 95)]⟩

/-- C8: when every pending update has its first id at or below the id `S` of the
fetched snapshot (and `S + 1` is representable), `fetchAndPush` returns no error,
commits the baseline with last applied id `S`, empties the pending queue and emits
exactly one event, a ready with an empty replay list. -/
theorem fetchAndPush_covered_dropped (b : Buffer Book) (book : Book) (s : Int)
    (hs : HasNext s) (hcov : ∀ u ∈ b.buffer, u.FirstUpdateID ≤ s) :
    (b.fetchAndPush (.ok (book, s))).2 = none ∧
      (b.fetchAndPush (.ok (book, s))).1.snapshot = some book ∧
      (b.fetchAndPush (.ok (book, s))).1.finalUpdateID = s ∧
      (b.fetchAndPush (.ok (book, s))).1.buffer = [] ∧
      (b.fetchAndPush (.ok (book, s))).1.events = b.events ++ [Event.ready book []] := by
  have hloop : replayLoop b.buffer s [] = .ok (s, []) := by
    have := replayLoop_skip b.buffer [] s [] hs hcov
    simpa [replayLoop] using this
  have hno : ∀ first rest, b.buffer = first :: rest → ¬ s < first.FirstUpdateID := by
    intro first rest hq
    have := hcov first (by rw [hq]; exact List.mem_cons_self first rest)
    omega
  rw [fetchAndPush_past_check b book s hno, hloop]
  exact ⟨rfl, rfl, rfl, rfl, rfl⟩

/-- Witness of C8: snapshot as of 100 and the single pending update (95, 99). -/
theorem fetchAndPush_covered_dropped_witness :
    ((pendingWith [(95, 99)]).fetchAndPush (.ok ((), 100))).2 = none ∧
      ((pendingWith [(95, 99)]).fetchAndPush (.ok ((), 100))).1.snapshot = some () ∧
      ((pendingWith [(95, 99)]).fetchAndPush (.ok ((), 100))).1.finalUpdateID = 100 ∧
      ((pendingWith [(95, 99)]).fetchAndPush (.ok ((), 100))).1.buffer = [] ∧
      ((pendingWith [(95, 99)]).fetchAndPush (.ok ((), 100))).1.events
        = (pendingWith [(95, 99)]).events ++ [Event.ready () []] :=
  fetchAndPush_covered_dropped (pendingWith [(95, 99)]) () 100 (by decide) (by decide)

/-- C1 (counterexample): with a snapshot as of 100 and the pending queue [(101, 101)],
a contiguous chain starting right after the snapshot, the attempt does not commit:
it is rejected as too early. -/
theorem fetchAndPush_chain_at_next_rejected :
    IsChain 100 (pendingWith [(101, 101)]).buffer ∧
      ¬ (((pendingWith [(101, 101)]).fetchAndPush (.ok ((), 100))).2 = none ∧
          ((pendingWith [(101, 101)]).fetchAndPush (.ok ((), 100))).1.snapshot = some () ∧
          ((pendingWith [(101, 101)]).fetchAndPush (.ok ((), 100))).1.finalUpdateID = 101 ∧
          ((pendingWith [(101, 101)]).fetchAndPush (.ok ((), 100))).1.events
            = (pendingWith [(101, 101)]).events ++ [Event.ready () [⟨101, 101, ()⟩]]) := by
  constructor
  · simp [pendingWith, IsChain]
  · decide

/-- C1 (amended): let the pending queue be some updates with first id at or below
the id `S` of the fetched snapshot followed by a non-empty contiguous chain
`u1..un` starting at `S + 1`. When at least one such covered update is in front,
`fetchAndPush` returns no error, commits the baseline with last applied id the
final id of `un`, empties the queue and emits exactly one event, a ready whose
replay list is `u1..un` in order. When none is in front (the queue itself starts at
`S + 1`), the attempt is rejected as too early and no baseline is committed. -/
theorem fetchAndPush_replay (b : Buffer Book) (book : Book) (s : Int)
    (covered chain : List (Update Book)) (hb : b.buffer = covered ++ chain)
    (hs : IsInt64 s) (hty : ∀ u ∈ chain, u.IsTyped) (hne : chain ≠ [])
    (hchain : IsChain s chain) (hcov : ∀ u ∈ covered, u.FirstUpdateID ≤ s) :
    (covered ≠ [] →
      (b.fetchAndPush (.ok (book, s))).2 = none ∧
        (b.fetchAndPush (.ok (book, s))).1.snapshot = some book ∧
        (b.fetchAndPush (.ok (book, s))).1.finalUpdateID
          = (chain.getLast hne).FinalUpdateID ∧
        (b.fetchAndPush (.ok (book, s))).1.buffer = [] ∧
        (b.fetchAndPush (.ok (book, s))).1.events
          = b.events ++ [Event.ready book chain]) ∧
    (covered = [] →
      (b.fetchAndPush (.ok (book, s))).2 = some (DepthError.tooEarly s (s + 1)) ∧
        (b.fetchAndPush (.ok (book, s))).1.snapshot = none ∧
        (b.fetchAndPush (.ok (book, s))).1.events = b.events ++ [Event.reset]) := by
  obtain ⟨u1, us, rfl⟩ := List.exists_cons_of_ne_nil hne
  have hu1 : u1.FirstUpdateID = s + 1 := hchain.1
  have hnext : HasNext s :=
    hasNext_of_lt hs (hty u1 (List.mem_cons_self u1 us)).1 (by omega)
  constructor
  · intro hc
    have hloop : replayLoop b.buffer s [] = .ok (lastFinal s (u1 :: us), u1 :: us) := by
      rw [hb, replayLoop_skip covered (u1 :: us) s [] hnext hcov,
        replayLoop_chain (u1 :: us) s [] hs hty hchain]
      simp
    have hno : ∀ first rest, b.buffer = first :: rest → ¬ s < first.FirstUpdateID := by
      intro first rest hq
      obtain ⟨c, cs, rfl⟩ := List.exists_cons_of_ne_nil hc
      rw [hb] at hq
      simp only [List.cons_append, List.cons.injEq] at hq
      have := hcov c (List.mem_cons_self c cs)
      rw [← hq.1]
      omega
    rw [fetchAndPush_past_check b book s hno, hloop]
    exact ⟨rfl, rfl, lastFinal_eq_getLast s (u1 :: us) hne, rfl, rfl⟩
  · intro hc
    subst hc
    have hq : b.buffer = u1 :: us := by simpa using hb
    rw [fetchAndPush_tooEarly b book s u1 us hq (by omega), hu1]
    exact ⟨rfl, rfl, rfl⟩

/-- Witness of C1 (amended): snapshot as of 100, the covered update (99, 100) in front
of the chain [(101, 101), (102, 105), (106, 110)]; and the chain [(101, 101)] alone. -/
theorem fetchAndPush_replay_witness :
    (((pendingWith [(99, 100), (101, 101), (102, 105), (106, 110)]).fetchAndPush
        (.ok ((), 100))).2 = none ∧
      ((pendingWith [(99, 100), (101, 101), (102, 105), (106, 110)]).fetchAndPush
        (.ok ((), 100))).1.snapshot = some () ∧
      ((pendingWith [(99, 100), (101, 101), (102, 105), (106, 110)]).fetchAndPush
        (.ok ((), 100))).1.finalUpdateID = 110 ∧
      ((pendingWith [(99, 100), (101, 101), (102, 105), (106, 110)]).fetchAndPush
        (.ok ((), 100))).1.buffer = [] ∧
      ((pendingWith [(99, 100), (101, 101), (102, 105), (106, 110)]).fetchAndPush
        (.ok ((), 100))).1.events
        = [Event.ready () [⟨101, 101, ()⟩, ⟨102, 105, ()⟩, ⟨106, 110, ()⟩]]) ∧
    (((pendingWith [(101, 101)]).fetchAndPush (.ok ((), 100))).2
        = some (DepthError.tooEarly 100 (100 + 1)) ∧
      ((pendingWith [(101, 101)]).fetchAndPush (.ok ((), 100))).1.snapshot = none ∧
      ((pendingWith [(101, 101)]).fetchAndPush (.ok ((), 100))).1.events
        = (pendingWith [(101, 101)]).events ++ [Event.reset]) :=
  ⟨(fetchAndPush_replay (pendingWith [(99, 100), (101, 101), (102, 105), (106, 110)]) () 100
      [⟨99, 100, ()⟩] [⟨101, 101, ()⟩, ⟨102, 105, ()⟩, ⟨106, 110, ()⟩] rfl (by decide)
      (by decide) (by decide) (by simp [IsChain]) (by decide)).1 (by decide),
   (fetchAndPush_replay (pendingWith [(101, 101)]) () 100 [] [⟨101, 101, ()⟩] rfl (by decide)
      (by decide) (by decide) (by simp [IsChain]) (by decide)).2 rfl⟩

/-- C10: let the fetched snapshot be as of `S`, with `S + 1` and the successor of
every pending final id representable. Whenever `fetchAndPush` returns no error, it
has emitted exactly one event, a ready whose replay list is a sub-list of the
pending queue in arrival order and a contiguous chain starting at `S + 1`, and the
committed last applied id is the final id of the last replayed update (`S` when
the replay list is empty). And when the loop reaches an update whose first id
exceeds the running id plus one, `fetchAndPush` returns an error and leaves the
buffer without baseline. -/
theorem fetchAndPush_commit_chain (b : Buffer Book) (book : Book) (s : Int)
    (hs : HasNext s) (hq : ∀ u ∈ b.buffer, HasNext u.FinalUpdateID) :
    ((b.fetchAndPush (.ok (book, s))).2 = none →
      ∃ replay : List (Update Book),
        (b.fetchAndPush (.ok (book, s))).1.events = b.events ++ [Event.ready book replay] ∧
        replay.Sublist b.buffer ∧
        IsChain s replay ∧
        (b.fetchAndPush (.ok (book, s))).1.finalUpdateID = lastFinal s replay ∧
        (b.fetchAndPush (.ok (book, s))).1.snapshot = some book) ∧
    (∀ (before after : List (Update Book)) (u : Update Book) (running : Int)
        (accepted : List (Update Book)),
      b.buffer = before ++ u :: after →
      replayLoop before s [] = .ok (running, accepted) →
      u.FirstUpdateID > running + 1 →
      (b.fetchAndPush (.ok (book, s))).2 ≠ none ∧
        (b.fetchAndPush (.ok (book, s))).1.snapshot = none) := by
  by_cases hearly : ∃ first rest, b.buffer = first :: rest ∧ s < first.FirstUpdateID
  · obtain ⟨first, rest, hb, hlt⟩ := hearly
    rw [fetchAndPush_tooEarly b book s first rest hb hlt]
    constructor
    · intro h; simp at h
    · intro _ _ _ _ _ _ _ _
      exact ⟨by simp, rfl⟩
  · have hno : ∀ first rest, b.buffer = first :: rest → ¬ s < first.FirstUpdateID :=
      fun first rest hb hlt => hearly ⟨first, rest, hb, hlt⟩
    rw [fetchAndPush_past_check b book s hno]
    constructor
    · intro h
      cases hl : replayLoop b.buffer s [] with
      | error e => rw [hl] at h; simp at h
      | ok r =>
        obtain ⟨fin, out⟩ := r
        obtain ⟨replay, ho, hsub, hch, hfin, _⟩ := replayLoop_ok b.buffer s [] fin out hs hq hl
        simp only [List.nil_append] at ho
        subst ho
        exact ⟨out, rfl, hsub, hch, hfin, rfl⟩
    · intro before after u running accepted hb hl hgap
      have hbefore : ∀ v ∈ before, HasNext v.FinalUpdateID := fun v hv =>
        hq v (by rw [hb]; exact List.mem_append_left _ hv)
      obtain ⟨_, _, _, _, _, hrun⟩ :=
        replayLoop_ok before s [] running accepted hs hbefore hl
      have hnext := add64_one_of_hasNext hrun
      have h1 : ¬ u.FirstUpdateID < add64 running 1 := by rw [hnext]; omega
      have h2 : u.FirstUpdateID > add64 running 1 := by rw [hnext]; omega
      have hloop : replayLoop b.buffer s [] = .error (u, running) := by
        rw [hb, replayLoop_append, hl]
        simp [replayLoop, h1, h2]
      rw [hloop]
      exact ⟨by simp, rfl⟩

/-- Witness of C10: snapshot as of 100; the queue [(99, 100), (101, 101), (102, 105)]
commits with the replay [(101, 101), (102, 105)], and the queue
[(99, 100), (101, 101), (103, 105)] is rejected at (103, 105). -/
theorem fetchAndPush_commit_chain_witness :
    (∃ replay : List (Update Unit),
        ((pendingWith [(99, 100), (101, 101), (102, 105)]).fetchAndPush
          (.ok ((), 100))).1.events
          = (pendingWith [(99, 100), (101, 101), (102, 105)]).events
            ++ [Event.ready () replay] ∧
        replay.Sublist (pendingWith [(99, 100), (101, 101), (102, 105)]).buffer ∧
        IsChain 100 replay ∧
        ((pendingWith [(99, 100), (101, 101), (102, 105)]).fetchAndPush
          (.ok ((), 100))).1.finalUpdateID = lastFinal 100 replay ∧
        ((pendingWith [(99, 100), (101, 101), (102, 105)]).fetchAndPush
          (.ok ((), 100))).1.snapshot = some ()) ∧
    (((pendingWith [(99, 100), (101, 101), (103, 105)]).fetchAndPush (.ok ((), 100))).2 ≠ none ∧
      ((pendingWith [(99, 100), (101, 101), (103, 105)]).fetchAndPush
        (.ok ((), 100))).1.snapshot = none) :=
  ⟨(fetchAndPush_commit_chain (pendingWith [(99, 100), (101, 101), (102, 105)]) () 100
      (by decide) (by decide)).1 (by decide),
   (fetchAndPush_commit_chain (pendingWith [(99, 100), (101, 101), (103, 105)]) () 100
      (by decide) (by decide)).2 [⟨99, 100, ()⟩, ⟨101, 101, ()⟩] [] ⟨103, 105, ()⟩ 101
      [⟨101, 101, ()⟩] rfl rfl (by decide)⟩

/-! ## Sequences of `AddUpdate` calls -/

/-- With a baseline and no gap, `AddUpdate` succeeds, keeps the baseline and sets the
last applied id to the final id of the update. -/
theorem addUpdate_applied (b : Buffer Book) (book : Book) (u : Update Book)
    (hready : b.snapshot = some book) (hL : HasNext b.finalUpdateID)
    (hle : u.FirstUpdateID ≤ b.finalUpdateID + 1) :
    (b.AddUpdate u.Object u.FirstUpdateID [u.FinalUpdateID]).2 = none ∧
      (b.AddUpdate u.Object u.FirstUpdateID [u.FinalUpdateID]).1.snapshot = some book ∧
      (b.AddUpdate u.Object u.FirstUpdateID [u.FinalUpdateID]).1.finalUpdateID
        = u.FinalUpdateID := by
  have hg : ¬ u.FirstUpdateID > add64 b.finalUpdateID 1 := by
    rw [add64_one_of_hasNext hL]; omega
  by_cases hc : b.resetC = true <;>
    simp [Buffer.AddUpdate, newUpdate, hc, hready, hg, Buffer.EmitPush]

/-- C7 (counterexample): on a buffer with last applied id 105 the update (50, 60) is
no gap (50 ≤ 106), yet after the call the last applied id is 60: it has decreased. -/
theorem addUpdate_overlap_decreases :
    (readyAt 105).snapshot = some () ∧ GapFree (readyAt 105) [⟨50, 60, ()⟩] ∧
      ¬ (((addAll (readyAt 105) [⟨50, 60, ()⟩]).map (fun r => r.1.finalUpdateID)
            = [60]) ∧
          NonDecreasing ((readyAt 105).finalUpdateID ::
            (addAll (readyAt 105) [⟨50, 60, ()⟩]).map (fun r => r.1.finalUpdateID))) := by
  refine ⟨rfl, ?_, ?_⟩
  · simp [GapFree, readyAt]
  · simp [addAll, readyAt, Buffer.AddUpdate, newUpdate, add64, wrap64, Buffer.EmitPush,
      NonDecreasing]

/-- C7 (amended): on a buffer with a baseline, for every gap-free sequence of updates
(each with first ≤ final and first at most one past the last applied id at the time
of its call, all ids having a representable successor), every `AddUpdate` call
succeeds and after each call the last applied id equals the final id of that update;
and when each update starts exactly one past the last applied id at the time of its
call, the last applied id never decreases from one call to the next. -/
theorem addAll_gapFree (us : List (Update Book)) :
    ∀ (b : Buffer Book) (book : Book), b.snapshot = some book →
      HasNext b.finalUpdateID → (∀ u ∈ us, HasNext u.FinalUpdateID) → GapFree b us →
      (∀ r ∈ addAll b us, r.2 = none) ∧
        (addAll b us).map (fun r => r.1.finalUpdateID)
          = us.map (fun u => u.FinalUpdateID) ∧
        (Contiguous b us →
          NonDecreasing (b.finalUpdateID ::
            (addAll b us).map (fun r => r.1.finalUpdateID))) := by
  induction us with
  | nil =>
    intro b book _ _ _ _
    simp [addAll, NonDecreasing]
  | cons u rest ih =>
    intro b book hready hL hus hgf
    obtain ⟨hfl, hle, hgf2⟩ := hgf
    obtain ⟨hok, hsnap, hfin⟩ := addUpdate_applied b book u hready hL hle
    have hu := hus u (List.mem_cons_self u rest)
    obtain ⟨h1, h2, h3⟩ :=
      ih (b.AddUpdate u.Object u.FirstUpdateID [u.FinalUpdateID]).1 book hsnap
        (by rw [hfin]; exact hu) (fun v hv => hus v (List.mem_cons_of_mem u hv)) hgf2
    refine ⟨?_, ?_, ?_⟩
    · intro r hr
      simp only [addAll, List.mem_cons] at hr
      rcases hr with hr | hr
      · rw [hr]; exact hok
      · exact h1 r hr
    · simp only [addAll, List.map_cons, hfin, h2]
    · intro hcont
      obtain ⟨hc1, hc2⟩ := hcont
      have hrest := h3 hc2
      rw [hfin] at hrest
      simp only [addAll, List.map_cons, hfin, NonDecreasing]
      exact ⟨by omega, hrest⟩

/-- Witness of C7 (amended): last applied id 105, then the updates (106, 108) and
(109, 109). -/
theorem addAll_gapFree_witness :
    (∀ r ∈ addAll (readyAt 105) [⟨106, 108, ()⟩, ⟨109, 109, ()⟩], r.2 = none) ∧
      (addAll (readyAt 105) [⟨106, 108, ()⟩, ⟨109, 109, ()⟩]).map
          (fun r => r.1.finalUpdateID) = [108, 109] ∧
      NonDecreasing ((readyAt 105).finalUpdateID ::
        (addAll (readyAt 105) [⟨106, 108, ()⟩, ⟨109, 109, ()⟩]).map
          (fun r => r.1.finalUpdateID)) :=
  have h := addAll_gapFree [⟨106, 108, ()⟩, ⟨109, 109, ()⟩] (readyAt 105) () rfl
    (by decide) (by decide)
    (by simp [GapFree, readyAt, Buffer.AddUpdate, newUpdate, add64, wrap64, Buffer.EmitPush])
  ⟨h.1, h.2.1, h.2.2
    (by simp [Contiguous, readyAt, Buffer.AddUpdate, newUpdate, add64, wrap64,
      Buffer.EmitPush])⟩

/-! ## Traces -/

/-- What a buffer can still start: the goroutines already started, one more when the
once guard is armed, one more when a reset signal is pending. -/
def Buffer.credit (b : Buffer Book) : Nat :=
  b.spawned + (if b.once.done then 0 else 1) + (if b.resetC then 1 else 0)

theorem countReset_append (es : List (Event Book)) (e : Event Book) :
    countReset (es ++ [e]) = countReset es + countReset [e] := by
  induction es with
  | nil => simp [countReset]
  | cons x xs ih =>
    cases x <;> simp [countReset, ih]
    omega

theorem countReady_append (es : List (Event Book)) (e : Event Book) :
    countReady (es ++ [e]) = countReady es + countReady [e] := by
  induction es with
  | nil => simp [countReady]
  | cons x xs ih =>
    cases x <;> simp [countReady, ih]
    omega

/-- Effect of `AddUpdate` on the counters. -/
theorem addUpdate_counts (b : Buffer Book) (o : Book) (first : Int) (finalArgs : List Int) :
    (b.AddUpdate o first finalArgs).1.credit + countReset b.events
        ≤ b.credit + countReset (b.AddUpdate o first finalArgs).1.events ∧
      countReady (b.AddUpdate o first finalArgs).1.events = countReady b.events ∧
      ((b.AddUpdate o first finalArgs).1.spawned = b.spawned ∨
        (b.AddUpdate o first finalArgs).1.spawned = b.spawned + 1) := by
  cases hs : b.snapshot with
  | none =>
    by_cases hc : b.resetC = true <;> by_cases hd : b.once.done = true <;>
      simp [Buffer.AddUpdate, hc, hd, hs, Buffer.onceDoTryFetch, Reonce.Do, Reonce.Reset,
        Buffer.credit]
  | some book =>
    by_cases hg : (newUpdate o first finalArgs).FirstUpdateID > add64 b.finalUpdateID 1
    · by_cases hc : b.resetC = true <;> by_cases hd : b.once.done = true <;>
        simp [Buffer.AddUpdate, hc, hd, hs, hg, Reonce.Reset, Buffer.credit,
          Buffer.resetSnapshot, Buffer.emitReset, Buffer.EmitReset, countReset_append,
          countReady_append, countReset, countReady] <;> try omega
    · by_cases hc : b.resetC = true <;> by_cases hd : b.once.done = true <;>
        simp [Buffer.AddUpdate, hc, hd, hs, hg, Reonce.Reset, Buffer.credit,
          Buffer.EmitPush, countReset_append, countReady_append, countReset, countReady]

/-- Effect of `resetSnapshot` followed by `emitReset` on the counters. -/
theorem reset_counts (b : Buffer Book) :
    b.resetSnapshot.emitReset.credit + countReset b.events
        ≤ b.credit + countReset b.resetSnapshot.emitReset.events ∧
      countReady b.resetSnapshot.emitReset.events = countReady b.events ∧
      b.resetSnapshot.emitReset.spawned = b.spawned := by
  by_cases hc : b.resetC = true <;>
    simp [Buffer.credit, Buffer.resetSnapshot, Buffer.emitReset, Buffer.EmitReset, hc,
      countReset_append, countReady_append, countReset, countReady]
  omega

/-- Effect of `fetchAndPush` on the counters: a commit adds one ready event, a failed
attempt none. -/
theorem fetchAndPush_counts (b : Buffer Book) (fetched : FetchResult Book) :
    (b.fetchAndPush fetched).1.credit + countReset b.events
        ≤ b.credit + countReset (b.fetchAndPush fetched).1.events ∧
      countReady (b.fetchAndPush fetched).1.events
        = countReady b.events + (if (b.fetchAndPush fetched).2 = none then 1 else 0) ∧
      (b.fetchAndPush fetched).1.spawned = b.spawned := by
  cases fetched with
  | error msg => simp [Buffer.fetchAndPush]
  | ok r =>
    obtain ⟨book, s⟩ := r
    by_cases hearly : ∃ first rest, b.buffer = first :: rest ∧ s < first.FirstUpdateID
    · obtain ⟨first, rest, hb, hlt⟩ := hearly
      rw [fetchAndPush_tooEarly b book s first rest hb hlt]
      simpa using reset_counts b
    · have hno : ∀ first rest, b.buffer = first :: rest → ¬ s < first.FirstUpdateID :=
        fun first rest hb hlt => hearly ⟨first, rest, hb, hlt⟩
      rw [fetchAndPush_past_check b book s hno]
      cases hl : replayLoop b.buffer s [] with
      | error e => simpa using reset_counts b
      | ok r =>
        simp [Buffer.EmitReady, Buffer.credit, countReset_append, countReady_append,
          countReset, countReady]

/-- The invariant of the traces. -/
def Sys.Inv (s : Sys Book) : Prop :=
  s.commits.length = countReady s.buf.events ∧
    countReady s.buf.events + s.running.length = s.buf.spawned ∧
    s.buf.credit ≤ 1 + countReset s.buf.events

theorem Sys.inv_init : (Sys.init : Sys Book).Inv := by
  simp [Sys.Inv, Sys.init, NewBuffer, countReady, countReset, Buffer.credit]

theorem Sys.inv_step (s : Sys Book) (st : Step Book) (h : s.Inv) : (s.step st).Inv := by
  obtain ⟨h1, h2, h3⟩ := h
  cases st with
  | addUpdate o first finalArgs =>
    obtain ⟨c1, c2, c3⟩ := addUpdate_counts s.buf o first finalArgs
    refine ⟨?_, ?_, ?_⟩
    · simp only [Sys.step, c2]; exact h1
    · rcases c3 with c3 | c3
      · simp only [Sys.step, c2, c3, lt_irrefl, if_false]; exact h2
      · simp only [Sys.step, c2, c3, Nat.lt_succ_self, if_true, List.length_append,
          List.length_singleton]
        omega
    · simp only [Sys.step]; omega
  | reset =>
    obtain ⟨c1, c2, c3⟩ := reset_counts s.buf
    refine ⟨?_, ?_, ?_⟩
    · simp only [Sys.step, Buffer.Reset, c2]; exact h1
    · simp only [Sys.step, Buffer.Reset, c2, c3]; exact h2
    · simp only [Sys.step, Buffer.Reset]; omega
  | attempt task fetched =>
    obtain ⟨c1, c2, c3⟩ := fetchAndPush_counts s.buf fetched
    cases hg : s.running.get? task with
    | none => simp only [Sys.step, hg]; exact ⟨h1, h2, h3⟩
    | some epoch =>
      have hlt : task < s.running.length := by
        rw [List.get?_eq_some] at hg
        exact hg.1
      cases hr : s.buf.fetchAndPush fetched with
      | mk b2 err =>
        rw [hr] at c1 c2 c3
        dsimp only at c1 c2 c3
        cases err with
        | none =>
          simp only [Sys.step, hg, hr]
          simp only [if_true] at c2
          refine ⟨?_, ?_, ?_⟩
          · simp only [List.length_append, List.length_singleton]; omega
          · simp only [List.length_eraseIdx, hlt, if_true]; omega
          · dsimp only; omega
        | some e =>
          simp only [Sys.step, hg, hr]
          simp at c2
          refine ⟨?_, ?_, ?_⟩
          · dsimp only; omega
          · dsimp only; omega
          · dsimp only; omega

theorem Sys.inv_run (trace : List (Step Book)) :
    ∀ s : Sys Book, s.Inv → (s.run trace).Inv := by
  induction trace with
  | nil => intro s h; exact h
  | cons st rest ih => intro s h; exact ih (s.step st) (Sys.inv_step s st h)

/-- C6 (counterexample): in the trace `AddUpdate(1)`, `Reset()`, `AddUpdate(2)`, commit
by the first goroutine of a snapshot as of 1, commit by the second goroutine of a
snapshot as of 2, two ready events follow the reset with no reset between them, and
the first commit is by a goroutine started before that reset. -/
theorem two_commits_after_one_reset :
    ¬ (oneReadyPerEpoch ((Sys.init : Sys Unit).run
          [.addUpdate () 1 [], .reset, .addUpdate () 2 [], .attempt 0 (.ok ((), 1)),
            .attempt 0 (.ok ((), 2))]).buf.events false = true) ∧
      ¬ (∀ c ∈ ((Sys.init : Sys Unit).run
          [.addUpdate () 1 [], .reset, .addUpdate () 2 [], .attempt 0 (.ok ((), 1)),
            .attempt 0 (.ok ((), 2))]).commits, c.1 = c.2) := by
  constructor <;> decide

/-- C6 (amended): in every trace of atomic steps from a new buffer (`AddUpdate` calls,
`Reset` calls, iterations of the `tryFetch` loops: fetch failure, rejection, commit)
every ready event is the commit of one `tryFetch` goroutine, which then stops: the
ready events and the goroutines still running add up to the goroutines started; and
the number of goroutines started, hence of commits, is at most one more than the
number of reset events emitted. -/
theorem commits_bounded_by_resets (trace : List (Step Book)) :
    ((Sys.init : Sys Book).run trace).commits.length
        = countReady ((Sys.init : Sys Book).run trace).buf.events ∧
      countReady ((Sys.init : Sys Book).run trace).buf.events
          + ((Sys.init : Sys Book).run trace).running.length
        = ((Sys.init : Sys Book).run trace).buf.spawned ∧
      ((Sys.init : Sys Book).run trace).buf.spawned
        ≤ 1 + countReset ((Sys.init : Sys Book).run trace).buf.events := by
  obtain ⟨h1, h2, h3⟩ := Sys.inv_run trace Sys.init Sys.inv_init
  refine ⟨h1, h2, ?_⟩
  unfold Buffer.credit at h3
  omega

end Depth
